import Mathlib

/-!
# Verification of the `strip` pass of wasm-tools

Shallow embedding of `src/bin/wasm-tools/strip.rs` (`Opts::run` and its
`strip_custom_section` closure) over a model of the container binary format.
The section walker (`wasmparser`) and the re-encoder (`wasm_encoder`) are
crates of this repository that are not under `src/`; they are modelled from
the spec: a magic/version preamble identifying the container variant,
followed by id-prefixed, length-prefixed (LEB128) sections, with custom
sections carrying a length-prefixed name before their payload.  Section
contents are treated as opaque bytes (the spec's explicit non-goal: no
semantic validation of section contents).
-/

namespace WasmStrip

/-- Modelled from the spec: bytes of the input/output buffers.  The crates
`wasmparser`/`wasm_encoder` (not under `src/`) work on `u8` buffers; a byte is
a `Nat`, kept below 256 by every encoder defined here. -/
abbrev Bytes := List Nat

/-- Modelled from the spec: a compiled name-matching pattern is an opaque
predicate on custom-section names (the regex engine is out of scope and
"treated as an opaque predicate"). Names are raw byte strings. -/
abbrev Matcher := Bytes → Bool

/-- Modelled from the spec: unsigned LEB128 encoding used by the
length-prefix framing of sections (`wasm_encoder`'s `u32` encoder, not under
`src/`).  Fuel-bounded structural recursion; 5 bytes suffice for any `u32`. -/
def encodeU32Aux : Nat → Nat → List Nat
  | 0, _ => []
  | fuel + 1, n => if n < 128 then [n] else (n % 128 + 128) :: encodeU32Aux fuel (n / 128)

/-- Modelled from the spec: canonical LEB128 encoding of a `u32` length
(including the `usize → u32` cast the encoder performs). -/
def encodeU32 (n : Nat) : List Nat := encodeU32Aux 5 (n % 2 ^ 32)

/-- Modelled from the spec: unsigned LEB128 decoding (`wasmparser`'s u32
reader, not under `src/`): continuation-bit bytes, at most 5 of them. -/
def decodeU32Aux : Nat → List Nat → Option (Nat × List Nat)
  | _, [] => none
  | 0, _ :: _ => none
  | fuel + 1, b :: rest =>
    if b < 128 then some (b, rest)
    else
      match decodeU32Aux fuel rest with
      | some (v, rest') => some (b % 128 + 128 * v, rest')
      | none => none

/-- Modelled from the spec: LEB128 decoding of a `u32`, rejecting values that
do not fit in 32 bits. -/
def decodeU32 (bs : List Nat) : Option (Nat × List Nat) :=
  match decodeU32Aux 5 bs with
  | some (v, rest) => if v < 2 ^ 32 then some (v, rest) else none
  | none => none

theorem decodeU32Aux_encodeU32Aux (fuel : Nat) :
    ∀ n rest, n < 128 ^ fuel → 0 < fuel →
      decodeU32Aux fuel (encodeU32Aux fuel n ++ rest) = some (n, rest) := by
  induction fuel with
  | zero => intro n rest _ hfuel; omega
  | succ k ih =>
    intro n rest hn _
    by_cases hsmall : n < 128
    · simp [encodeU32Aux, decodeU32Aux, hsmall]
    · have hb : ¬ (n % 128 + 128 < 128) := by omega
      have hdiv : n / 128 < 128 ^ k := by
        rw [Nat.div_lt_iff_lt_mul (by omega : 0 < 128)]
        calc n < 128 ^ (k + 1) := hn
        _ = 128 ^ k * 128 := by rw [Nat.pow_succ]
      have hkpos : 0 < k := by
        rcases Nat.eq_zero_or_pos k with hk | hk
        · subst hk; simp at hdiv; omega
        · exact hk
      simp only [encodeU32Aux, if_neg hsmall, List.cons_append, decodeU32Aux, if_neg hb,
        ih (n / 128) rest hdiv hkpos, Option.some.injEq, Prod.mk.injEq]
      exact ⟨by omega, trivial⟩

/-- Round trip of the canonical length encoding: decoding what `encodeU32`
produced yields the original value and leaves the trailing bytes intact. -/
theorem decodeU32_encodeU32 (n : Nat) (rest : List Nat) (hn : n < 2 ^ 32) :
    decodeU32 (encodeU32 n ++ rest) = some (n, rest) := by
  have hmod : n % 2 ^ 32 = n := Nat.mod_eq_of_lt hn
  have hlt : n < 128 ^ 5 := by
    calc n < 2 ^ 32 := hn
    _ ≤ 128 ^ 5 := by norm_num
  rw [decodeU32, encodeU32, hmod, decodeU32Aux_encodeU32Aux 5 n rest hlt (by omega)]
  show (if n < 2 ^ 32 then some (n, rest) else none) = some (n, rest)
  rw [if_pos hn]

theorem decodeU32_lt (bs : List Nat) (v : Nat) (rest : List Nat)
    (h : decodeU32 bs = some (v, rest)) : v < 2 ^ 32 := by
  unfold decodeU32 at h
  split at h
  · next v' rest' heq =>
      split at h
      · next hv =>
          injection h with h1
          injection h1 with h2 h3
          omega
      · exact Option.noConfusion h
  · exact Option.noConfusion h

/-- Modelled from the spec: the two container variants a preamble can
declare (`wasmparser::Encoding`, not under `src/`): the base (module)
variant and the extended/nested (component) variant. -/
inductive Encoding
  | module
  | component
deriving DecidableEq

/-- Errors surfaced by the pass: structural decoding failure, the rejection
of the extended/nested variant (`bail!` in `Opts::run`), a name-matching
pattern that fails to compile (`RegexSet::new` error), and the
`unimplemented!("component model")` panic arm. -/
inductive StripErr
  | malformed
  | unsupportedVariant
  | invalidPattern
  | unimplementedPanic
deriving DecidableEq

/-- Modelled from the spec: one framed section of the container, as the
walker reports it: its id byte and its contents (the byte range between the
length prefix and the next section, excluding the id/length framing). -/
structure Sec where
  id : Nat
  contents : List Nat
deriving DecidableEq

/-- Modelled from the spec: the payloads the section walker
(`wasmparser::Parser::parse_all`, not under `src/`) yields, one constructor
per arm matched in `Opts::run`.  Standard sections carry their contents
range; a custom section carries its decoded name and its full contents
(name framing plus payload, `CustomSectionReader::range`); an unrecognized
section carries its raw id and contents. -/
inductive Payload
  | version (enc : Encoding)
  | typeSection (data : List Nat)
  | importSection (data : List Nat)
  | functionSection (data : List Nat)
  | tableSection (data : List Nat)
  | memorySection (data : List Nat)
  | tagSection (data : List Nat)
  | globalSection (data : List Nat)
  | exportSection (data : List Nat)
  | elementSection (data : List Nat)
  | dataSection (data : List Nat)
  | startSection (data : List Nat)
  | dataCountSection (data : List Nat)
  | codeSectionStart (data : List Nat)
  | codeSectionEntry
  | moduleSection
  | instanceSection
  | coreTypeSection
  | componentSection
  | componentInstanceSection
  | componentAliasSection
  | componentTypeSection
  | componentCanonicalSection
  | componentStartSection
  | componentImportSection
  | componentExportSection
  | customSection (name : List Nat) (contents : List Nat)
  | unknownSection (id : Nat) (contents : List Nat)
  | endMarker
deriving DecidableEq

/-- Modelled from the spec: the magic bytes opening every container. -/
def magicBytes : List Nat := [0x00, 0x61, 0x73, 0x6d]

/-- Modelled from the spec: the version/layer bytes declaring the base
(module) container variant. -/
def moduleVersionBytes : List Nat := [0x01, 0x00, 0x00, 0x00]

/-- Modelled from the spec: the version/layer bytes declaring the
extended/nested (component) container variant. -/
def componentVersionBytes : List Nat := [0x0d, 0x00, 0x01, 0x00]

/-- Modelled from the spec: decoding the preamble (`wasmparser`, not under
`src/`): the magic plus the version bytes identify the container variant;
anything else is a malformed input. Returns the variant and the remaining
bytes. -/
def splitPreamble (input : List Nat) : Option (Encoding × List Nat) :=
  if input.take 8 = magicBytes ++ moduleVersionBytes then some (.module, input.drop 8)
  else if input.take 8 = magicBytes ++ componentVersionBytes then some (.component, input.drop 8)
  else none

/-- Modelled from the spec: the section walk over the bytes following the
preamble (`wasmparser`, not under `src/`): each section is an id byte
followed by a LEB128 length and that many content bytes; a truncated or
unreadable section is a malformed input.  Section contents are opaque (the
spec's non-goal: no semantic validation).  Fuel-bounded; one unit of fuel
per section. -/
def parseSectionsAux : Nat → List Nat → Except StripErr (List Sec)
  | _, [] => .ok []
  | 0, _ :: _ => .error .malformed
  | fuel + 1, i :: rest =>
    match decodeU32 rest with
    | none => .error .malformed
    | some (len, rest') =>
      if len ≤ rest'.length then
        match parseSectionsAux fuel (rest'.drop len) with
        | .ok secs => .ok (⟨i, rest'.take len⟩ :: secs)
        | .error e => .error e
      else .error .malformed

/-- Modelled from the spec: the full section walk; the byte count bounds the
section count, so it is enough fuel. -/
def parseSections (bytes : List Nat) : Except StripErr (List Sec) :=
  parseSectionsAux bytes.length bytes

/-- Modelled from the spec: decoding a custom section's name
(`CustomSectionReader`, not under `src/`): a LEB128 length followed by that
many name bytes at the head of the section contents. -/
def customName (contents : List Nat) : Option (List Nat) :=
  match decodeU32 contents with
  | some (n, rest) => if n ≤ rest.length then some (rest.take n) else none
  | none => none

/-- Modelled from the spec: how the walker classifies a module-variant
section id into a payload (`wasmparser`'s module section dispatch, not under
`src/`): id 0 is custom (name decoded, malformed if unreadable), ids 1-13
are the standard kinds, and any other id is an unrecognized section passed
through with raw id and contents. -/
def classifyModuleSec (i : Nat) (c : List Nat) : Except StripErr Payload :=
  if i = 0 then
    match customName c with
    | some nm => .ok (.customSection nm c)
    | none => .error .malformed
  else if i = 1 then .ok (.typeSection c)
  else if i = 2 then .ok (.importSection c)
  else if i = 3 then .ok (.functionSection c)
  else if i = 4 then .ok (.tableSection c)
  else if i = 5 then .ok (.memorySection c)
  else if i = 6 then .ok (.globalSection c)
  else if i = 7 then .ok (.exportSection c)
  else if i = 8 then .ok (.startSection c)
  else if i = 9 then .ok (.elementSection c)
  else if i = 10 then .ok (.codeSectionStart c)
  else if i = 11 then .ok (.dataSection c)
  else if i = 12 then .ok (.dataCountSection c)
  else if i = 13 then .ok (.tagSection c)
  else .ok (.unknownSection i c)

/-- Effectful map over `Except`, mirroring per-payload processing of the
walker's stream: stops at the first error. -/
def mapExcept (f : α → Except StripErr β) : List α → Except StripErr (List β)
  | [] => .ok []
  | a :: as =>
    match f a with
    | .error e => .error e
    | .ok b =>
      match mapExcept f as with
      | .error e => .error e
      | .ok bs => .ok (b :: bs)

/-- Modelled from the spec: the payload stream the walker hands to
`Opts::run`'s `for` loop.  The walker is lazy and the loop aborts at the
version payload of a component-variant input, so no payload after that one
is ever forced; for the module variant the whole stream is the version
payload, one payload per section, and the end marker. -/
def parsePayloads (input : List Nat) : Except StripErr (List Payload) :=
  match splitPreamble input with
  | none => .error .malformed
  | some (.component, _) => .ok [.version .component]
  | some (.module, rest) =>
    match parseSections rest with
    | .error e => .error e
    | .ok secs =>
      match mapExcept (fun s => classifyModuleSec s.id s.contents) secs with
      | .error e => .error e
      | .ok ps => .ok (.version .module :: ps ++ [.endMarker])

/-- Configuration of the pass: the fields of `Opts` the core consumes.  The
`io` and `wat` fields are out-of-scope I/O collaborators.  Each entry of
`delete` is a raw pattern, modelled as `some matcher` when it compiles and
`none` when compilation fails (the regex engine is opaque per the spec). -/
structure Opts where
  all : Bool
  delete : List (Option Matcher)

/-- Modelled from the spec: `regex::RegexSet::new(self.delete.iter())`: the
whole set compiles iff every pattern does; otherwise the configuration error
is surfaced. -/
def compileDelete : List (Option Matcher) → Except StripErr (List Matcher)
  | [] => .ok []
  | none :: _ => .error .invalidPattern
  | some p :: rest =>
    match compileDelete rest with
    | .ok ps => .ok (p :: ps)
    | .error e => .error e

/-- Bytes of the name of the `name` custom section (`"name"` in UTF-8),
the distinguished section the default mode retains. -/
def nameSectionName : List Nat := [0x6e, 0x61, 0x6d, 0x65]

/-- Embeds the `strip_custom_section` closure of `Opts::run`: strip
everything when `--all` is set; otherwise, when any pattern was given,
strip exactly the matching names; otherwise strip everything but `name`. -/
def strip_custom_section (all : Bool) (to_delete : List Matcher) (name : List Nat) : Bool :=
  if all then true
  else if !to_delete.isEmpty then to_delete.any (fun p => p name)
  else name != nameSectionName

/-- Embeds one iteration of the `for payload in ...` loop of `Opts::run`:
the `match payload` dispatch.  The module accumulator is the list of raw
sections appended so far; `section(id, range)` appends `⟨id, bytes⟩`, the
component-model arms are the `unimplemented!` panic, and the custom arm
consults `strip_custom_section`. -/
def processPayload (all : Bool) (to_delete : List Matcher) (acc : List Sec) :
    Payload → Except StripErr (List Sec)
  | .version .module => .ok acc
  | .version .component => .error .unsupportedVariant
  | .typeSection d => .ok (acc ++ [⟨1, d⟩])
  | .importSection d => .ok (acc ++ [⟨2, d⟩])
  | .functionSection d => .ok (acc ++ [⟨3, d⟩])
  | .tableSection d => .ok (acc ++ [⟨4, d⟩])
  | .memorySection d => .ok (acc ++ [⟨5, d⟩])
  | .tagSection d => .ok (acc ++ [⟨13, d⟩])
  | .globalSection d => .ok (acc ++ [⟨6, d⟩])
  | .exportSection d => .ok (acc ++ [⟨7, d⟩])
  | .elementSection d => .ok (acc ++ [⟨9, d⟩])
  | .dataSection d => .ok (acc ++ [⟨11, d⟩])
  | .startSection d => .ok (acc ++ [⟨8, d⟩])
  | .dataCountSection d => .ok (acc ++ [⟨12, d⟩])
  | .codeSectionStart d => .ok (acc ++ [⟨10, d⟩])
  | .codeSectionEntry => .ok acc
  | .moduleSection => .error .unimplementedPanic
  | .instanceSection => .error .unimplementedPanic
  | .coreTypeSection => .error .unimplementedPanic
  | .componentSection => .error .unimplementedPanic
  | .componentInstanceSection => .error .unimplementedPanic
  | .componentAliasSection => .error .unimplementedPanic
  | .componentTypeSection => .error .unimplementedPanic
  | .componentCanonicalSection => .error .unimplementedPanic
  | .componentStartSection => .error .unimplementedPanic
  | .componentImportSection => .error .unimplementedPanic
  | .componentExportSection => .error .unimplementedPanic
  | .customSection nm c =>
    if strip_custom_section all to_delete nm then .ok acc else .ok (acc ++ [⟨0, c⟩])
  | .unknownSection i c => .ok (acc ++ [⟨i, c⟩])
  | .endMarker => .ok acc

/-- Embeds the `for` loop of `Opts::run` over the payload stream: processes
payloads in order, stopping at the first error (the `?` on each payload and
the `bail!`/panic arms). -/
def foldProcess (all : Bool) (to_delete : List Matcher) (acc : List Sec) :
    List Payload → Except StripErr (List Sec)
  | [] => .ok acc
  | p :: ps =>
    match processPayload all to_delete acc p with
    | .ok acc' => foldProcess all to_delete acc' ps
    | .error e => .error e

/-- Embeds `Opts::run` up to serialization: compile the patterns, walk the
payloads, fold the loop; the result is the section list of the output
module accumulator. -/
def runSections (o : Opts) (input : List Nat) : Except StripErr (List Sec) :=
  match compileDelete o.delete with
  | .error e => .error e
  | .ok to_delete =>
    match parsePayloads input with
    | .error e => .error e
    | .ok payloads => foldProcess o.all to_delete [] payloads

/-- Modelled from the spec: the bytes `wasm_encoder::RawSection` (not under
`src/`) appends for one section: id byte, canonical LEB128 length of the
data, then the data verbatim. -/
def secBytes (s : Sec) : List Nat := s.id :: encodeU32 s.contents.length ++ s.contents

/-- Modelled from the spec: serialization of the accumulated sections. -/
def sectionsBytes (secs : List Sec) : List Nat := (secs.map secBytes).flatten

/-- Modelled from the spec: `wasm_encoder::Module` serialization (not under
`src/`): the module preamble followed by the appended sections. -/
def moduleBytes (secs : List Sec) : List Nat :=
  magicBytes ++ moduleVersionBytes ++ sectionsBytes secs

/-- Embeds `Opts::run`: the output bytes handed to the output sink on
success, or the error that aborted the pass with no output written. -/
def run (o : Opts) (input : List Nat) : Except StripErr (List Nat) :=
  match runSections o input with
  | .ok secs => .ok (moduleBytes secs)
  | .error e => .error e

/-- Retention decision lifted to a parsed section: a non-custom section is
always kept; a custom one is kept iff `strip_custom_section` declines to
strip its decoded name. -/
def keepSec (all : Bool) (to_delete : List Matcher) (s : Sec) : Bool :=
  if s.id = 0 then
    match customName s.contents with
    | some nm => ! strip_custom_section all to_delete nm
    | none => true
  else true

/-- Classification of an id outside the standard range yields the
pass-through unrecognized section. -/
theorem classifyModuleSec_big (j : Nat) (c : List Nat) (hj : 14 ≤ j) :
    classifyModuleSec j c = .ok (.unknownSection j c) := by
  have h0 : j ≠ 0 := by omega
  have h1 : j ≠ 1 := by omega
  have h2 : j ≠ 2 := by omega
  have h3 : j ≠ 3 := by omega
  have h4 : j ≠ 4 := by omega
  have h5 : j ≠ 5 := by omega
  have h6 : j ≠ 6 := by omega
  have h7 : j ≠ 7 := by omega
  have h8 : j ≠ 8 := by omega
  have h9 : j ≠ 9 := by omega
  have h10 : j ≠ 10 := by omega
  have h11 : j ≠ 11 := by omega
  have h12 : j ≠ 12 := by omega
  have h13 : j ≠ 13 := by omega
  simp [classifyModuleSec, h0, h1, h2, h3, h4, h5, h6, h7,
    h8, h9, h10, h11, h12, h13]

/-- Retention of a non-custom section is unconditional. -/
theorem keepSec_nonCustom (all : Bool) (td : List Matcher) (s : Sec) (h : s.id ≠ 0) :
    keepSec all td s = true := by
  unfold keepSec
  rw [if_neg h]

/-- Retention of a custom section with a decodable name is the negated
stripping decision on that name. -/
theorem keepSec_custom (all : Bool) (td : List Matcher) (c nm : List Nat)
    (hnm : customName c = some nm) :
    keepSec all td ⟨0, c⟩ = ! strip_custom_section all td nm := by
  unfold keepSec
  simp [hnm]

/-- Processing the payload a module-variant section classifies to appends
exactly that section when it is kept and nothing when it is dropped. -/
theorem processPayload_classify (all : Bool) (td : List Matcher) (acc : List Sec)
    (s : Sec) (p : Payload)
    (h : classifyModuleSec s.id s.contents = .ok p) :
    processPayload all td acc p =
      .ok (acc ++ if keepSec all td s then [s] else []) := by
  obtain ⟨i, c⟩ := s
  by_cases h14 : 14 ≤ i
  · rw [classifyModuleSec_big i c h14] at h
    injection h with h'
    subst h'
    rw [keepSec_nonCustom all td ⟨i, c⟩ (by simp only [] ; omega)]
    simp [processPayload]
  · push_neg at h14
    interval_cases i
    · rcases hnm : customName c with _ | nm
      · simp [classifyModuleSec, hnm] at h
      · simp [classifyModuleSec, hnm] at h
        subst h
        simp only [processPayload]
        by_cases hs : strip_custom_section all td nm <;>
          simp [hs, keepSec_custom all td c nm hnm]
    all_goals simp [classifyModuleSec] at h
    all_goals subst h
    all_goals simp [processPayload, keepSec]

/-- Folding a concatenation of payload streams processes the first stream,
then the second from the accumulator the first one reached. -/
theorem foldProcess_append (all : Bool) (td : List Matcher) (ps qs : List Payload)
    (acc : List Sec) :
    foldProcess all td acc (ps ++ qs) =
      match foldProcess all td acc ps with
      | .ok acc' => foldProcess all td acc' qs
      | .error e => .error e := by
  induction ps generalizing acc with
  | nil => simp [foldProcess]
  | cons p ps ih =>
    rcases hp : processPayload all td acc p with e | acc' <;>
      simp only [List.cons_append, foldProcess, hp]
    exact ih acc'

/-- Folding the classified payloads of a section list appends exactly the
kept sections, in order: the loop body is a filter. -/
theorem foldProcess_classified (all : Bool) (td : List Matcher) (secs : List Sec)
    (ps : List Payload) (acc : List Sec)
    (h : mapExcept (fun s => classifyModuleSec s.id s.contents) secs = .ok ps) :
    foldProcess all td acc ps = .ok (acc ++ secs.filter (keepSec all td)) := by
  induction secs generalizing ps acc with
  | nil =>
    simp only [mapExcept] at h
    injection h with h'
    subst h'
    simp [foldProcess]
  | cons s rest ih =>
    simp only [mapExcept] at h
    split at h
    · exact Except.noConfusion h
    · next p hp =>
        split at h
        · exact Except.noConfusion h
        · next ps' hps =>
            injection h with h'
            subst h'
            have hproc := processPayload_classify all td acc s p hp
            simp only [foldProcess, hproc]
            rw [ih ps' _ hps]
            by_cases hk : keepSec all td s <;>
              simp [hk, List.filter_cons, List.append_assoc]

/-- Folding the full payload stream of a module-variant input filters its
section list. -/
theorem foldProcess_stream (all : Bool) (td : List Matcher) (rawSecs : List Sec)
    (ps : List Payload)
    (hcls : mapExcept (fun s => classifyModuleSec s.id s.contents) rawSecs = .ok ps) :
    foldProcess all td [] (.version .module :: ps ++ [.endMarker]) =
      .ok (rawSecs.filter (keepSec all td)) := by
  have h2 : foldProcess all td [] (ps ++ [Payload.endMarker]) =
      .ok (rawSecs.filter (keepSec all td)) := by
    rw [foldProcess_append]
    rw [foldProcess_classified all td rawSecs ps [] hcls]
    simp [foldProcess, processPayload]
  show foldProcess all td [] (ps ++ [Payload.endMarker]) = _
  exact h2

/-- Success of `runSections` on a module-variant input, computed as a filter
of the parsed section list. -/
theorem runSections_module (o : Opts) (td : List Matcher) (input rest : List Nat)
    (rawSecs : List Sec) (ps : List Payload)
    (hc : compileDelete o.delete = .ok td)
    (hpre : splitPreamble input = some (.module, rest))
    (hsec : parseSections rest = .ok rawSecs)
    (hcls : mapExcept (fun s => classifyModuleSec s.id s.contents) rawSecs = .ok ps) :
    runSections o input = .ok (rawSecs.filter (keepSec o.all td)) := by
  simp only [runSections, parsePayloads, hc, hpre, hsec, hcls]
  exact foldProcess_stream o.all td rawSecs ps hcls

/-- Inversion of a successful pass: the input carried the module preamble,
its sections parsed and classified, and the output sections are the filter
of the parsed ones by the retention decision. -/
theorem runSections_ok_inv (o : Opts) (input : List Nat) (secs : List Sec)
    (h : runSections o input = .ok secs) :
    ∃ td rest rawSecs ps,
      compileDelete o.delete = .ok td ∧
      splitPreamble input = some (.module, rest) ∧
      parseSections rest = .ok rawSecs ∧
      mapExcept (fun s => classifyModuleSec s.id s.contents) rawSecs = .ok ps ∧
      secs = rawSecs.filter (keepSec o.all td) := by
  unfold runSections at h
  split at h
  · exact Except.noConfusion h
  · next td hc =>
      split at h
      · exact Except.noConfusion h
      · next payloads hp =>
          unfold parsePayloads at hp
          split at hp
          · exact Except.noConfusion hp
          · next hpre =>
              injection hp with hp'
              subst hp'
              simp [foldProcess, processPayload] at h
          · next rest hpre =>
              split at hp
              · exact Except.noConfusion hp
              · next rawSecs hsec =>
                  split at hp
                  · exact Except.noConfusion hp
                  · next ps hcls =>
                      injection hp with hp'
                      subst hp'
                      rw [foldProcess_stream o.all td rawSecs ps hcls] at h
                      injection h with h'
                      subst h'
                      exact ⟨td, rest, rawSecs, ps, hc, hpre, hsec, hcls, rfl⟩

/-- Contents reported by the section walk always fit the 32-bit length
prefix they were framed with. -/
theorem parseSectionsAux_contents_lt (fuel : Nat) : ∀ bytes secs,
    parseSectionsAux fuel bytes = .ok secs → ∀ s ∈ secs, s.contents.length < 2 ^ 32 := by
  induction fuel with
  | zero =>
    intro bytes secs h s hs
    cases bytes with
    | nil =>
      simp only [parseSectionsAux] at h
      injection h with h'
      subst h'
      exact absurd hs (List.not_mem_nil s)
    | cons b rest => exact Except.noConfusion h
  | succ fuel ih =>
    intro bytes secs h s hs
    cases bytes with
    | nil =>
      simp only [parseSectionsAux] at h
      injection h with h'
      subst h'
      exact absurd hs (List.not_mem_nil s)
    | cons b rest =>
      simp only [parseSectionsAux] at h
      split at h
      · exact Except.noConfusion h
      · next len rest' hdec =>
          split at h
          · next hle =>
              split at h
              · next secs' hrec =>
                  injection h with h'
                  subst h'
                  rcases List.mem_cons.mp hs with hs | hs
                  · subst hs
                    have hlen := decodeU32_lt rest len rest' hdec
                    simp only [List.length_take]
                    omega
                  · exact ih (rest'.drop len) secs' hrec s hs
              · exact Except.noConfusion h
          · exact Except.noConfusion h

/-- Serialized sections occupy at least one byte each. -/
theorem length_le_sectionsBytes (secs : List Sec) :
    secs.length ≤ (sectionsBytes secs).length := by
  induction secs with
  | nil => simp [sectionsBytes]
  | cons s rest ih =>
    simp only [sectionsBytes, List.map_cons, List.flatten_cons, List.length_append,
      List.length_cons]
    have : 1 ≤ (secBytes s).length := by simp [secBytes]
    calc rest.length + 1 ≤ (sectionsBytes rest).length + 1 := by omega
    _ ≤ (secBytes s).length + (sectionsBytes rest).length := by omega

/-- Round trip of section framing: the walk over re-serialized sections
recovers exactly those sections, given enough fuel. -/
theorem parseSectionsAux_roundtrip (secs : List Sec) : ∀ fuel, secs.length ≤ fuel →
    (∀ s ∈ secs, s.contents.length < 2 ^ 32) →
    parseSectionsAux fuel (sectionsBytes secs) = .ok secs := by
  induction secs with
  | nil =>
    intro fuel _ _
    show parseSectionsAux fuel [] = .ok []
    cases fuel <;> rfl
  | cons s rest ih =>
    intro fuel hfuel hlt
    obtain ⟨f, rfl⟩ : ∃ f, fuel = f + 1 := by
      cases fuel
      · simp at hfuel
      · exact ⟨_, rfl⟩
    have hs : s.contents.length < 2 ^ 32 := hlt s (List.mem_cons_self s rest)
    have hbytes : sectionsBytes (s :: rest) =
        s.id :: (encodeU32 s.contents.length ++ (s.contents ++ sectionsBytes rest)) := by
      simp [sectionsBytes, secBytes, List.append_assoc]
    rw [hbytes]
    simp only [parseSectionsAux,
      decodeU32_encodeU32 s.contents.length (s.contents ++ sectionsBytes rest) hs]
    rw [if_pos (by simp)]
    rw [List.take_left, List.drop_left]
    rw [ih f (by simp at hfuel; omega) (fun t ht => hlt t (List.mem_cons_of_mem s ht))]

/-- Round trip of the full section walk over re-serialized sections. -/
theorem parseSections_roundtrip (secs : List Sec)
    (hlt : ∀ s ∈ secs, s.contents.length < 2 ^ 32) :
    parseSections (sectionsBytes secs) = .ok secs :=
  parseSectionsAux_roundtrip secs (sectionsBytes secs).length
    (length_le_sectionsBytes secs) hlt

/-- Preamble of a re-serialized module: the module variant, followed by the
serialized sections. -/
theorem splitPreamble_moduleBytes (secs : List Sec) :
    splitPreamble (moduleBytes secs) = some (.module, sectionsBytes secs) := by
  simp [splitPreamble, moduleBytes, magicBytes, moduleVersionBytes, List.take, List.drop]

/-- Classification succeeds on every member of a successfully classified
list. -/
theorem mapExcept_ok_mem (f : α → Except StripErr β) (l : List α) (bs : List β)
    (h : mapExcept f l = .ok bs) : ∀ a ∈ l, ∃ b, f a = .ok b := by
  induction l generalizing bs with
  | nil => intro a ha; exact absurd ha (List.not_mem_nil a)
  | cons x xs ih =>
    intro a ha
    simp only [mapExcept] at h
    split at h
    · exact Except.noConfusion h
    · next b hb =>
        split at h
        · exact Except.noConfusion h
        · next bs' hbs =>
            rcases List.mem_cons.mp ha with ha | ha
            · subst ha; exact ⟨b, hb⟩
            · exact ih bs' hbs a ha

/-- A list whose members all classify successfully classifies successfully
as a whole. -/
theorem mapExcept_ok_of_forall (f : α → Except StripErr β) (l : List α)
    (h : ∀ a ∈ l, ∃ b, f a = .ok b) : ∃ bs, mapExcept f l = .ok bs := by
  induction l with
  | nil => exact ⟨[], rfl⟩
  | cons x xs ih =>
    obtain ⟨b, hb⟩ := h x (List.mem_cons_self x xs)
    obtain ⟨bs, hbs⟩ := ih (fun a ha => h a (List.mem_cons_of_mem x ha))
    exact ⟨b :: bs, by simp only [mapExcept, hb, hbs]⟩

/-- Pattern-set compilation fails on the configuration error whenever some
pattern fails to compile. -/
theorem compileDelete_none (ds : List (Option Matcher)) (h : none ∈ ds) :
    compileDelete ds = .error .invalidPattern := by
  induction ds with
  | nil => exact absurd h (List.not_mem_nil none)
  | cons d ds ih =>
    cases d with
    | none => rfl
    | some p =>
      rcases List.mem_cons.mp h with hd | hd
      · exact Option.noConfusion hd
      · simp only [compileDelete, ih hd]

/-- Payloads belonging to the extended/nested container model: the
constructors handled by the `unimplemented!("component model")` arm of
`Opts::run`. -/
def isComponentModelPayload : Payload → Bool
  | .moduleSection => true
  | .instanceSection => true
  | .coreTypeSection => true
  | .componentSection => true
  | .componentInstanceSection => true
  | .componentAliasSection => true
  | .componentTypeSection => true
  | .componentCanonicalSection => true
  | .componentStartSection => true
  | .componentImportSection => true
  | .componentExportSection => true
  | _ => false

/-- Recognizer of the outcome in which the pass hit the
`unimplemented!("component model")` panic arm. -/
def isPanicResult : Except StripErr (List Nat) → Bool
  | .error .unimplementedPanic => true
  | _ => false

/-- Recognizer that the walk of an input never yields a payload of the
extended/nested container model. -/
def componentFree (input : List Nat) : Bool :=
  match parsePayloads input with
  | .ok ps => ps.all (fun p => ! isComponentModelPayload p)
  | .error _ => true

/-- Classification of a module-variant section either succeeds with a
payload outside the component model or fails as malformed. -/
theorem classifyModuleSec_spec (i : Nat) (c : List Nat) :
    (∃ p, classifyModuleSec i c = .ok p ∧ isComponentModelPayload p = false) ∨
    classifyModuleSec i c = .error .malformed := by
  by_cases h14 : 14 ≤ i
  · exact .inl ⟨_, classifyModuleSec_big i c h14, rfl⟩
  · push_neg at h14
    interval_cases i
    · rcases hnm : customName c with _ | nm
      · exact .inr (by simp [classifyModuleSec, hnm])
      · exact .inl ⟨.customSection nm c, by simp [classifyModuleSec, hnm], rfl⟩
    all_goals exact .inl ⟨_, rfl, rfl⟩

/-- Classification of a module-variant section never yields a payload of the
component model. -/
theorem classifyModuleSec_not_component (i : Nat) (c : List Nat) (p : Payload)
    (h : classifyModuleSec i c = .ok p) : isComponentModelPayload p = false := by
  rcases classifyModuleSec_spec i c with ⟨p', hp', hcomp⟩ | herr
  · rw [hp'] at h
    injection h with h'
    subst h'
    exact hcomp
  · rw [herr] at h
    exact Except.noConfusion h

/-- Classification errors are always the malformed-input error. -/
theorem classifyModuleSec_error (i : Nat) (c : List Nat) (e : StripErr)
    (h : classifyModuleSec i c = .error e) : e = .malformed := by
  rcases classifyModuleSec_spec i c with ⟨p', hp', _⟩ | herr
  · rw [hp'] at h
    exact Except.noConfusion h
  · rw [herr] at h
    injection h with h'
    exact h'.symm

/-- Walk errors of the section framing are always the malformed-input
error. -/
theorem parseSectionsAux_error (fuel : Nat) : ∀ bytes e,
    parseSectionsAux fuel bytes = .error e → e = .malformed := by
  induction fuel with
  | zero =>
    intro bytes e h
    cases bytes with
    | nil => exact Except.noConfusion h
    | cons b rest =>
      injection h with h'
      exact h'.symm
  | succ fuel ih =>
    intro bytes e h
    cases bytes with
    | nil => exact Except.noConfusion h
    | cons b rest =>
      simp only [parseSectionsAux] at h
      split at h
      · injection h with h'
        exact h'.symm
      · next len rest' hdec =>
          split at h
          · split at h
            · exact Except.noConfusion h
            · next e' hrec =>
                injection h with h'
                rw [← h']
                exact ih (rest'.drop len) e' hrec
          · injection h with h'
            exact h'.symm

/-- A classification error of some member is what fails a classified
list. -/
theorem mapExcept_error (f : α → Except StripErr β) : ∀ (l : List α) (e : StripErr),
    mapExcept f l = .error e → ∃ a ∈ l, f a = .error e := by
  intro l
  induction l with
  | nil => intro e h; exact Except.noConfusion h
  | cons x xs ih =>
    intro e h
    simp only [mapExcept] at h
    split at h
    · next e' hx =>
        injection h with h'
        rw [← h']
        exact ⟨x, List.mem_cons_self x xs, hx⟩
    · next b hb =>
        split at h
        · next e' hxs =>
            injection h with h'
            rw [← h']
            obtain ⟨a, ha, hfa⟩ := ih e' hxs
            exact ⟨a, List.mem_cons_of_mem x ha, hfa⟩
        · exact Except.noConfusion h

/-- Walk errors are always the malformed-input error. -/
theorem parsePayloads_error (input : List Nat) (e : StripErr)
    (h : parsePayloads input = .error e) : e = .malformed := by
  unfold parsePayloads at h
  split at h
  · injection h with h'
    exact h'.symm
  · exact Except.noConfusion h
  · next rest hpre =>
      split at h
      · next e' hsec =>
          injection h with h'
          rw [← h']
          exact parseSectionsAux_error _ _ e' hsec
      · next secs hsec =>
          split at h
          · next e' hcls =>
              injection h with h'
              rw [← h']
              obtain ⟨s, _, hfs⟩ := mapExcept_error _ secs e' hcls
              exact classifyModuleSec_error s.id s.contents e' hfs
          · exact Except.noConfusion h

/-- Pattern-compilation errors are always the configuration error. -/
theorem compileDelete_error (ds : List (Option Matcher)) : ∀ e,
    compileDelete ds = .error e → e = .invalidPattern := by
  induction ds with
  | nil => intro e h; exact Except.noConfusion h
  | cons d ds ih =>
    intro e h
    cases d with
    | none =>
      injection h with h'
      exact h'.symm
    | some p =>
      simp only [compileDelete] at h
      split at h
      · exact Except.noConfusion h
      · next e' hds =>
          injection h with h'
          rw [← h']
          exact ih e' hds

/-- Processing can hit the panic arm only on a component-model payload. -/
theorem processPayload_panic (all : Bool) (td : List Matcher) (acc : List Sec)
    (p : Payload) (h : processPayload all td acc p = .error .unimplementedPanic) :
    isComponentModelPayload p = true := by
  cases p <;> try simp_all [processPayload, isComponentModelPayload]
  case version enc => cases enc <;> simp_all [processPayload]
  case customSection nm c =>
    by_cases hs : strip_custom_section all td nm <;> simp [processPayload, hs] at h

/-- The loop never hits the panic arm on a stream free of component-model
payloads. -/
theorem foldProcess_not_panic (all : Bool) (td : List Matcher) :
    ∀ (ps : List Payload) (acc : List Sec),
    (∀ p ∈ ps, isComponentModelPayload p = false) →
    foldProcess all td acc ps = .error .unimplementedPanic → False := by
  intro ps
  induction ps with
  | nil => intro acc _ h; exact Except.noConfusion h
  | cons p ps ih =>
    intro acc hfree h
    simp only [foldProcess] at h
    split at h
    · next acc' hp =>
        exact ih acc' (fun q hq => hfree q (List.mem_cons_of_mem p hq)) h
    · next e hp =>
        injection h with h'
        subst h'
        have := processPayload_panic all td acc p hp
        have hfalse := hfree p (List.mem_cons_self p ps)
        rw [this] at hfalse
        exact Bool.noConfusion hfalse

/-- Members of a successfully classified list all come from classifying some
member of the source list. -/
theorem mapExcept_mem_exists (f : α → Except StripErr β) :
    ∀ (l : List α) (bs : List β), mapExcept f l = .ok bs →
    ∀ b ∈ bs, ∃ a ∈ l, f a = .ok b := by
  intro l
  induction l with
  | nil =>
    intro bs h b hb
    simp only [mapExcept] at h
    injection h with h'
    subst h'
    exact absurd hb (List.not_mem_nil b)
  | cons x xs ih =>
    intro bs h b hb
    simp only [mapExcept] at h
    split at h
    · exact Except.noConfusion h
    · next y hy =>
        split at h
        · exact Except.noConfusion h
        · next ys hys =>
            injection h with h'
            subst h'
            rcases List.mem_cons.mp hb with hb | hb
            · subst hb
              exact ⟨x, List.mem_cons_self x xs, hy⟩
            · obtain ⟨a, ha, hfa⟩ := ih ys hys b hb
              exact ⟨a, List.mem_cons_of_mem x ha, hfa⟩

/-- A successful walk yields no component-model payload. -/
theorem parsePayloads_componentFree (input : List Nat) (ps : List Payload)
    (h : parsePayloads input = .ok ps) :
    ∀ p ∈ ps, isComponentModelPayload p = false := by
  unfold parsePayloads at h
  split at h
  · exact Except.noConfusion h
  · injection h with h'
    subst h'
    intro p hp
    rcases List.mem_cons.mp hp with hp | hp
    · subst hp; rfl
    · exact absurd hp (List.not_mem_nil p)
  · next rest hpre =>
      split at h
      · exact Except.noConfusion h
      · next secs hsec =>
          split at h
          · exact Except.noConfusion h
          · next cls hcls =>
              injection h with h'
              subst h'
              intro p hp
              have hp2 : p = Payload.version .module ∨
                  p ∈ cls ∨ p = Payload.endMarker := by
                have hp3 : p ∈ Payload.version Encoding.module ::
                    (cls ++ [Payload.endMarker]) := hp
                rcases List.mem_cons.mp hp3 with h1 | h1
                · exact .inl h1
                · rcases List.mem_append.mp h1 with h2 | h2
                  · exact .inr (.inl h2)
                  · exact .inr (.inr (List.mem_singleton.mp h2))
              rcases hp2 with rfl | hmem | rfl
              · rfl
              · obtain ⟨s, _, hfs⟩ := mapExcept_mem_exists _ secs cls hcls p hmem
                exact classifyModuleSec_not_component s.id s.contents p hfs
              · rfl

/-- Retention in pattern mode is the negated match decision. -/
theorem keepSec_pattern (td : List Matcher) (hne : td ≠ []) (s : Sec) (h0 : s.id = 0)
    (nm : List Nat) (hnm : customName s.contents = some nm) :
    keepSec false td s = ! td.any (fun p => p nm) := by
  obtain ⟨i, c⟩ := s
  simp only at h0 hnm
  subst h0
  rw [keepSec_custom false td c nm hnm]
  obtain ⟨t, ts, rfl⟩ := List.exists_cons_of_ne_nil hne
  simp [strip_custom_section]

/-- Sample module input: preamble, a custom section named `name` with
payload byte 170, a custom section named `ab`, and a type section. -/
def sampleInput : List Nat :=
  magicBytes ++ moduleVersionBytes ++
    [0, 6, 4, 110, 97, 109, 101, 170, 0, 3, 2, 97, 98, 1, 4, 1, 96, 0, 0]

/-- Section bytes of `sampleInput`, after the preamble. -/
def sampleRest : List Nat :=
  [0, 6, 4, 110, 97, 109, 101, 170, 0, 3, 2, 97, 98, 1, 4, 1, 96, 0, 0]

/-- Parsed sections of `sampleInput`. -/
def sampleSecs : List Sec :=
  [⟨0, [4, 110, 97, 109, 101, 170]⟩, ⟨0, [2, 97, 98]⟩, ⟨1, [1, 96, 0, 0]⟩]

/-- Classified payloads of `sampleInput`. -/
def samplePayloads : List Payload :=
  [.customSection [110, 97, 109, 101] [4, 110, 97, 109, 101, 170],
   .customSection [97, 98] [2, 97, 98],
   .typeSection [1, 96, 0, 0]]

/-- Matcher matching exactly the name `ab`. -/
def abMatcher : Matcher := fun nm => nm == [97, 98]

/-- Output bytes of the default-mode pass over `sampleInput`. -/
def sampleStripped : List Nat :=
  magicBytes ++ moduleVersionBytes ++ [0, 6, 4, 110, 97, 109, 101, 170, 1, 4, 1, 96, 0, 0]

/-- C1: for every accepted input module and every policy mode, the output
section sequence is exactly the input's section sequence filtered by the
retention decision — a `List.filter`, so no section is reordered, merged,
split, duplicated, or added — and the decision keeps every non-custom
section, so only dropped custom sections are removed. -/
theorem strip_order_preservation (o : Opts) (td : List Matcher)
    (input rest : List Nat) (rawSecs : List Sec) (ps : List Payload)
    (hc : compileDelete o.delete = .ok td)
    (hpre : splitPreamble input = some (.module, rest))
    (hsec : parseSections rest = .ok rawSecs)
    (hcls : mapExcept (fun s => classifyModuleSec s.id s.contents) rawSecs = .ok ps) :
    runSections o input = .ok (rawSecs.filter (keepSec o.all td)) ∧
      ∀ s ∈ rawSecs, s.id ≠ 0 → keepSec o.all td s = true :=
  ⟨runSections_module o td input rest rawSecs ps hc hpre hsec hcls,
   fun s _ hs => keepSec_nonCustom o.all td s hs⟩

/-- Witness for C1 at the sample input in default mode. -/
theorem strip_order_preservation_witness :
    runSections ⟨false, []⟩ sampleInput = .ok (sampleSecs.filter (keepSec false [])) ∧
      ∀ s ∈ sampleSecs, s.id ≠ 0 → keepSec false [] s = true :=
  strip_order_preservation ⟨false, []⟩ [] sampleInput sampleRest sampleSecs
    samplePayloads rfl rfl rfl rfl

/-- C2: the retention decision is a pure function of the all-flag, the
pattern set and the name, in strict priority order: the all-flag strips
every name; otherwise a non-empty pattern set strips exactly the names
matching at least one pattern; otherwise every name is stripped except
`name`. -/
theorem strip_custom_section_priority (all : Bool) (td : List Matcher) (nm : List Nat) :
    (all = true → strip_custom_section all td nm = true) ∧
    (all = false → td ≠ [] →
      (strip_custom_section all td nm = true ↔ ∃ p ∈ td, p nm = true)) ∧
    (all = false → td = [] →
      (strip_custom_section all td nm = true ↔ nm ≠ nameSectionName)) := by
  refine ⟨?_, ?_, ?_⟩
  · intro h
    subst h
    rfl
  · intro h hne
    subst h
    obtain ⟨t, ts, rfl⟩ := List.exists_cons_of_ne_nil hne
    simp [strip_custom_section, List.any_eq_true]
  · intro h he
    subst h
    subst he
    simp [strip_custom_section, bne_iff_ne]

/-- Witness for C2, exercising all three priority branches. -/
theorem strip_custom_section_priority_witness :
    strip_custom_section true [] [0] = true ∧
    (strip_custom_section false [abMatcher] [97, 98] = true ↔
      ∃ p ∈ [abMatcher], p [97, 98] = true) ∧
    (strip_custom_section false [] [0] = true ↔ ([0] : List Nat) ≠ nameSectionName) :=
  ⟨(strip_custom_section_priority true [] [0]).1 rfl,
   (strip_custom_section_priority false [abMatcher] [97, 98]).2.1 rfl (by simp),
   (strip_custom_section_priority false [] [0]).2.2 rfl rfl⟩

/-- C3: for every accepted input and every policy mode, the non-custom
sections of the output are exactly the non-custom sections of the input, in
order, each with contents bytes equal to the input's. -/
theorem nonCustom_sections_verbatim (o : Opts) (td : List Matcher)
    (input rest : List Nat) (rawSecs : List Sec) (ps : List Payload) (out : List Sec)
    (hc : compileDelete o.delete = .ok td)
    (hpre : splitPreamble input = some (.module, rest))
    (hsec : parseSections rest = .ok rawSecs)
    (hcls : mapExcept (fun s => classifyModuleSec s.id s.contents) rawSecs = .ok ps)
    (hrun : runSections o input = .ok out) :
    out.filter (fun s => s.id != 0) = rawSecs.filter (fun s => s.id != 0) := by
  have h1 := runSections_module o td input rest rawSecs ps hc hpre hsec hcls
  rw [hrun] at h1
  injection h1 with h1'
  subst h1'
  rw [List.filter_filter]
  apply List.filter_congr
  intro s _
  by_cases h0 : s.id = 0
  · simp [h0]
  · simp [keepSec_nonCustom o.all td s h0, h0]

/-- Witness for C3 at the sample input in strip-all mode. -/
theorem nonCustom_sections_verbatim_witness :
    List.filter (fun s => s.id != 0) [(⟨1, [1, 96, 0, 0]⟩ : Sec)] =
      sampleSecs.filter (fun s => s.id != 0) :=
  nonCustom_sections_verbatim ⟨true, []⟩ [] sampleInput sampleRest sampleSecs
    samplePayloads [⟨1, [1, 96, 0, 0]⟩] rfl rfl rfl rfl rfl

/-- C4: an input whose preamble declares the extended/nested (component)
container variant fails with the unsupported-variant error under every
valid configuration, and no output bytes are produced. -/
theorem component_variant_rejected (o : Opts) (td : List Matcher) (input rest : List Nat)
    (hc : compileDelete o.delete = .ok td)
    (hpre : splitPreamble input = some (.component, rest)) :
    run o input = .error .unsupportedVariant := by
  simp only [run, runSections, parsePayloads, hc, hpre]
  rfl

/-- Witness for C4 at a bare component preamble. -/
theorem component_variant_rejected_witness :
    run ⟨false, []⟩ (magicBytes ++ componentVersionBytes) = .error .unsupportedVariant :=
  component_variant_rejected ⟨false, []⟩ [] (magicBytes ++ componentVersionBytes) [] rfl rfl

/-- C5: when some supplied pattern fails to compile, the pass fails with the
configuration error on every input whatsoever — even one that is not
parseable — so the failure is reported before any parsing of the input. -/
theorem invalid_pattern_rejected_before_parse (o : Opts) (input : List Nat)
    (h : none ∈ o.delete) :
    run o input = .error .invalidPattern := by
  simp only [run, runSections, compileDelete_none o.delete h]

/-- Witness for C5 at an unparseable input. -/
theorem invalid_pattern_rejected_before_parse_witness :
    run ⟨false, [none]⟩ [9, 9] = .error .invalidPattern :=
  invalid_pattern_rejected_before_parse ⟨false, [none]⟩ [9, 9] (by simp)

/-- C6: in pattern mode (all-flag unset, non-empty compiled pattern set),
a custom section of the input is present in the output iff its name matches
no pattern — for every name, the distinguished `name` included. -/
theorem pattern_mode_selectivity (o : Opts) (td : List Matcher)
    (input rest : List Nat) (rawSecs : List Sec) (ps : List Payload) (out : List Sec)
    (hall : o.all = false) (hne : td ≠ [])
    (hc : compileDelete o.delete = .ok td)
    (hpre : splitPreamble input = some (.module, rest))
    (hsec : parseSections rest = .ok rawSecs)
    (hcls : mapExcept (fun s => classifyModuleSec s.id s.contents) rawSecs = .ok ps)
    (hrun : runSections o input = .ok out) :
    ∀ s ∈ rawSecs, s.id = 0 → ∀ nm, customName s.contents = some nm →
      (s ∈ out ↔ td.any (fun p => p nm) = false) := by
  have h1 := runSections_module o td input rest rawSecs ps hc hpre hsec hcls
  rw [hrun] at h1
  injection h1 with h1'
  subst h1'
  intro s hs h0 nm hnm
  constructor
  · intro hmem
    have hk := (List.mem_filter.mp hmem).2
    rw [hall, keepSec_pattern td hne s h0 nm hnm] at hk
    simpa using hk
  · intro hno
    refine List.mem_filter.mpr ⟨hs, ?_⟩
    rw [hall, keepSec_pattern td hne s h0 nm hnm]
    simp [hno]

/-- Witness for C6 at the sample input: the `ab` custom section's presence
is equivalent to its name matching no pattern. -/
theorem pattern_mode_selectivity_witness :
    (⟨0, [2, 97, 98]⟩ : Sec) ∈
        [(⟨0, [4, 110, 97, 109, 101, 170]⟩ : Sec), ⟨1, [1, 96, 0, 0]⟩] ↔
      [abMatcher].any (fun p => p [97, 98]) = false :=
  pattern_mode_selectivity ⟨false, [some abMatcher]⟩ [abMatcher] sampleInput sampleRest
    sampleSecs samplePayloads [⟨0, [4, 110, 97, 109, 101, 170]⟩, ⟨1, [1, 96, 0, 0]⟩]
    rfl (by simp) rfl rfl rfl rfl rfl
    ⟨0, [2, 97, 98]⟩ (by decide) rfl [97, 98] rfl

/-- C7: in default mode (all-flag unset, empty pattern set), every custom
section of the input named `name` is present in the output, contents bytes
identical (it is the same parsed section). -/
theorem default_preserves_name_section (o : Opts)
    (input rest : List Nat) (rawSecs : List Sec) (ps : List Payload) (out : List Sec)
    (hall : o.all = false) (hdel : o.delete = [])
    (hpre : splitPreamble input = some (.module, rest))
    (hsec : parseSections rest = .ok rawSecs)
    (hcls : mapExcept (fun s => classifyModuleSec s.id s.contents) rawSecs = .ok ps)
    (hrun : runSections o input = .ok out) :
    ∀ s ∈ rawSecs, s.id = 0 → customName s.contents = some nameSectionName →
      s ∈ out := by
  have hc : compileDelete o.delete = .ok [] := by rw [hdel]; rfl
  have h1 := runSections_module o [] input rest rawSecs ps hc hpre hsec hcls
  rw [hrun] at h1
  injection h1 with h1'
  subst h1'
  intro s hs h0 hnm
  refine List.mem_filter.mpr ⟨hs, ?_⟩
  rw [hall]
  obtain ⟨i, c⟩ := s
  simp only at h0 hnm
  subst h0
  rw [keepSec_custom false [] c nameSectionName hnm]
  rfl

/-- Witness for C7 at the sample input in default mode. -/
theorem default_preserves_name_section_witness :
    (⟨0, [4, 110, 97, 109, 101, 170]⟩ : Sec) ∈
      [(⟨0, [4, 110, 97, 109, 101, 170]⟩ : Sec), ⟨1, [1, 96, 0, 0]⟩] :=
  default_preserves_name_section ⟨false, []⟩ sampleInput sampleRest sampleSecs
    samplePayloads [⟨0, [4, 110, 97, 109, 101, 170]⟩, ⟨1, [1, 96, 0, 0]⟩]
    rfl rfl rfl rfl rfl rfl ⟨0, [4, 110, 97, 109, 101, 170]⟩ (by decide) rfl rfl

/-- C8: default-mode stripping is idempotent: a second default-mode pass
over the output of a first one returns that output byte for byte. -/
theorem default_mode_idempotent (o : Opts) (input out : List Nat)
    (hall : o.all = false) (hdel : o.delete = [])
    (h : run o input = .ok out) :
    run o out = .ok out := by
  unfold run at h
  split at h
  · next secs hrs =>
      injection h with h'
      subst h'
      obtain ⟨td, rest, rawSecs, ps, hc, hpre, hsec, hcls, hfilt⟩ :=
        runSections_ok_inv o input secs hrs
      have htd : td = [] := by
        rw [hdel] at hc
        injection hc with h''
        exact h''.symm
      subst htd
      have hlt : ∀ s ∈ secs, s.contents.length < 2 ^ 32 := by
        intro s hs
        rw [hfilt] at hs
        exact parseSectionsAux_contents_lt rest.length rest rawSecs hsec s
          (List.mem_of_mem_filter hs)
      have hkeep : ∀ s ∈ secs, keepSec o.all [] s = true := by
        intro s hs
        rw [hfilt] at hs
        exact (List.mem_filter.mp hs).2
      have hclsOk : ∀ s ∈ secs, ∃ p, classifyModuleSec s.id s.contents = .ok p := by
        intro s hs
        rw [hfilt] at hs
        exact mapExcept_ok_mem _ rawSecs ps hcls s (List.mem_of_mem_filter hs)
      obtain ⟨ps', hcls'⟩ :=
        mapExcept_ok_of_forall (fun s => classifyModuleSec s.id s.contents) secs hclsOk
      have hc2 : compileDelete o.delete = .ok [] := by rw [hdel]; rfl
      have hrun2 := runSections_module o [] (moduleBytes secs) (sectionsBytes secs)
        secs ps' hc2 (splitPreamble_moduleBytes secs)
        (parseSections_roundtrip secs hlt) hcls'
      rw [List.filter_eq_self.mpr hkeep] at hrun2
      simp only [run, hrun2]
  · exact Except.noConfusion h

/-- Witness for C8: a second default-mode pass over the default-mode output
of the sample input returns it unchanged. -/
theorem default_mode_idempotent_witness :
    run ⟨false, []⟩ sampleStripped = .ok sampleStripped :=
  default_mode_idempotent ⟨false, []⟩ sampleInput sampleStripped rfl rfl rfl

/-- Errors of the section pass are never the panic of the component-model
arms. -/
theorem runSections_error_not_panic (o : Opts) (input : List Nat) (e : StripErr)
    (h : runSections o input = .error e) : e ≠ .unimplementedPanic := by
  unfold runSections at h
  split at h
  · next e' hcd =>
      injection h with h'
      rw [← h', compileDelete_error o.delete e' hcd]
      intro hco
      exact StripErr.noConfusion hco
  · next td hcd =>
      split at h
      · next e' hp =>
          injection h with h'
          rw [← h', parsePayloads_error input e' hp]
          intro hco
          exact StripErr.noConfusion hco
      · next payloads hp =>
          intro he
          subst he
          exact foldProcess_not_panic o.all td payloads []
            (parsePayloads_componentFree input payloads hp) h

/-- C9: under every configuration and input, the walk of the input yields no
record of the extended/nested container model, and the pass never ends in
the `unimplemented!("component model")` panic: those arms are unreachable. -/
theorem component_arms_unreachable (o : Opts) (input : List Nat) :
    isPanicResult (run o input) = false ∧ componentFree input = true := by
  constructor
  · unfold run
    rcases hr : runSections o input with e | secs
    · have hne := runSections_error_not_panic o input e hr
      cases e
      · rfl
      · rfl
      · rfl
      · exact absurd rfl hne
    · rfl
  · unfold componentFree
    rcases hp : parsePayloads input with e | ps
    · rfl
    · rw [List.all_eq_true]
      intro p hpmem
      simp [parsePayloads_componentFree input ps hp p hpmem]

/-- C10: the pass is deterministic: equal configuration fields and equal
input bytes produce equal results; nothing else enters the computation. -/
theorem run_deterministic (o₁ o₂ : Opts) (i₁ i₂ : List Nat)
    (hall : o₁.all = o₂.all) (hdel : o₁.delete = o₂.delete) (hin : i₁ = i₂) :
    run o₁ i₁ = run o₂ i₂ := by
  obtain ⟨a₁, d₁⟩ := o₁
  obtain ⟨a₂, d₂⟩ := o₂
  simp only at hall hdel
  subst hall
  subst hdel
  subst hin
  rfl

/-- Witness for C10 at the sample input under the default configuration. -/
theorem run_deterministic_witness :
    run ⟨false, []⟩ sampleInput = run ⟨false, []⟩ sampleInput :=
  run_deterministic ⟨false, []⟩ ⟨false, []⟩ sampleInput sampleInput rfl rfl rfl

end WasmStrip
